import Mathlib

set_option maxRecDepth 10000

/-!
Shallow embedding of the core of the binance-futures-trading-bot repository
(src/bot/client.py, src/bot/validators.py, src/bot/orders.py, src/cli.py):
the HMAC-SHA256 request signer, the order-parameter validators, the order
parameter construction and the gateway response/error mapping, together with
proofs of the specified properties.

Conventions of the embedding:
- Python dicts with string keys (the request parameter mappings) are modelled
  as association lists in insertion order, which is exactly the iteration
  order of a Python dict.  Integer values (recvWindow, timestamp) are
  modelled after their str() image, which is what urlencode serializes.
- Machine words of SHA-256 are Nat values kept below 2^32 by explicit
  reduction mod 4294967296.
- The wall clock time.time() * 1000 is surfaced as an explicit millisecond
  parameter nowMs; it is the only input of the signer that the source does
  not receive as an argument.
-/

namespace TradingBot

/-- Request parameter mapping: a Python dict with string keys and values in
insertion order. -/
abbrev Params := List (String × String)

/-- Test whether the dict has the key k (Python: k in d). -/
def hasKey (m : Params) (k : String) : Bool :=
  m.any (fun p => p.1 = k)

/-- Overwrite the value of an entry when its key is k. -/
def updF (k v : String) (p : String × String) : String × String :=
  if p.1 = k then (k, v) else p

/-- Python dict item assignment d[k] = v: if the key is present its value is
overwritten in place (keeping its position), otherwise the pair is appended
at the end of the insertion order. -/
def dictInsert (m : Params) (k v : String) : Params :=
  if hasKey m k then m.map (updF k v)
  else m ++ [(k, v)]

/-- First value stored under key k (Python dict lookup; keys are unique in a
dict so the first occurrence is the only one). -/
def getVal (m : Params) (k : String) : Option String :=
  match m with
  | [] => none
  | p :: rest => if p.1 = k then some p.2 else getVal rest k

/-! ## UTF-8 encoding (Python str.encode()) -/

/-- UTF-8 encoding of a single code point (valid code points are below
0x110000; the last branch also covers them). -/
def utf8encodeChar (c : Nat) : List Nat :=
  if c < 128 then [c]
  else if c < 2048 then [192 + c / 64, 128 + c % 64]
  else if c < 65536 then [224 + c / 4096, 128 + c / 64 % 64, 128 + c % 64]
  else [240 + c / 262144, 128 + c / 4096 % 64, 128 + c / 64 % 64, 128 + c % 64]

/-- UTF-8 encoding of a string as a byte list (Python s.encode()). -/
def utf8encode (s : String) : List Nat :=
  s.data.flatMap (fun c => utf8encodeChar c.toNat)

/-- Number of bytes of a UTF-8 sequence, read off its first byte. -/
def utf8charLen (b : Nat) : Nat :=
  if b < 192 then 1 else if b < 224 then 2 else if b < 240 then 3 else 4

/-- Code point of one UTF-8 sequence, from its first byte and the following
bytes. -/
def utf8decodeHead (b : Nat) (bs : List Nat) : Nat :=
  if b < 192 then b
  else if b < 224 then (b - 192) * 64 + (bs.getD 0 0 - 128)
  else if b < 240 then (b - 224) * 4096 + (bs.getD 0 0 - 128) * 64 + (bs.getD 1 0 - 128)
  else (b - 240) * 262144 + (bs.getD 0 0 - 128) * 4096 +
    (bs.getD 1 0 - 128) * 64 + (bs.getD 2 0 - 128)

/-- Left inverse of the UTF-8 encoding on encoded byte lists, used only to
prove that the encoding is injective; it performs no validity checking. -/
def utf8decode : List Nat → List Nat
  | [] => []
  | b :: bs => utf8decodeHead b bs :: utf8decode (bs.drop (utf8charLen b - 1))
termination_by l => l.length
decreasing_by
  simp only [List.length_drop, List.length_cons]
  omega

/-! ## URL percent-encoding (urllib.parse.quote_plus, as used by urlencode) -/

/-- Uppercase hex digit, as used by percent-encoding. -/
def hexDigitU (n : Nat) : Char :=
  if n < 10 then Char.ofNat (48 + n) else Char.ofNat (55 + n)

/-- Bytes that quote_plus leaves unencoded: ASCII alphanumerics and the four
characters underscore, dot, hyphen, tilde. -/
def isSafeByte (b : Nat) : Bool :=
  (48 ≤ b ∧ b ≤ 57) ∨ (65 ≤ b ∧ b ≤ 90) ∨ (97 ≤ b ∧ b ≤ 122) ∨
    b = 95 ∨ b = 46 ∨ b = 45 ∨ b = 126

/-- Encoding of a single byte under quote_plus: safe bytes stand for
themselves, the space becomes a plus sign, everything else becomes a percent
escape with two uppercase hex digits. -/
def quoteByte (b : Nat) : List Char :=
  if isSafeByte b then [Char.ofNat b]
  else if b = 32 then [ '+' ]
  else [ '%', hexDigitU (b / 16 % 16), hexDigitU (b % 16)]

/-- quote_plus over the UTF-8 bytes of a string, as a character list. -/
def quotePlusChars (s : String) : List Char :=
  (utf8encode s).flatMap quoteByte

/-- Value of an uppercase hex digit (inverse of hexDigitU on digits). -/
def hexValU (c : Char) : Nat :=
  if c.toNat ≤ 57 then c.toNat - 48 else c.toNat - 55

/-- Number of characters of one byte encoding, read off its first
character. -/
def quoteLen (c : Char) : Nat := if c = '%' then 3 else 1

/-- Byte denoted by one segment of the quote_plus output. -/
def unquoteHead (c : Char) (rest : List Char) : Nat :=
  if c = '%' then hexValU (rest.getD 0 '0') * 16 + hexValU (rest.getD 1 '0')
  else if c = '+' then 32
  else c.toNat

/-- Left inverse of the byte-wise quote_plus encoding on encoded character
lists, used only to prove injectivity of the encoding. -/
def unquoteChars : List Char → List Nat
  | [] => []
  | c :: rest => unquoteHead c rest :: unquoteChars (rest.drop (quoteLen c - 1))
termination_by l => l.length
decreasing_by
  simp only [List.length_drop, List.length_cons]
  omega

/-- One key=value segment of the query string: quote_plus of the key, an
equals sign, quote_plus of the value (urllib.parse.urlencode with the default
empty safe set). -/
def encodePair (p : String × String) : List Char :=
  quotePlusChars p.1 ++ '=' :: quotePlusChars p.2

/-- Join character lists with a single separator character between them
(str.join on the sequence of segments). -/
def joinSep (sep : Char) : List (List Char) → List Char
  | [] => []
  | [x] => x
  | x :: xs => x ++ sep :: joinSep sep xs

/-- Split a character list at every occurrence of the separator, the inverse
of joinSep when no segment contains the separator. -/
def splitSep (sep : Char) : List Char → List (List Char)
  | [] => [[]]
  | c :: rest =>
    let r := splitSep sep rest
    if c = sep then [] :: r else (c :: r.headD []) :: r.tail

/-- urllib.parse.urlencode: the key=value segments in dict insertion order,
joined by ampersands. -/
def urlencode (m : Params) : String :=
  String.mk (joinSep '&' (m.map encodePair))

/-! ## SHA-256 (hashlib.sha256), on byte lists with Nat word arithmetic -/

/-- Reduction to a 32-bit word. -/
def w32 (x : Nat) : Nat := x % 4294967296

/-- Right rotation of a 32-bit word. -/
def rotr (n x : Nat) : Nat := w32 ((x >>> n) ||| (x <<< (32 - n)))

/-- Bitwise complement of a 32-bit word. -/
def bnot32 (x : Nat) : Nat := x ^^^ 4294967295

def bsig0 (x : Nat) : Nat := rotr 2 x ^^^ rotr 13 x ^^^ rotr 22 x
def bsig1 (x : Nat) : Nat := rotr 6 x ^^^ rotr 11 x ^^^ rotr 25 x
def ssig0 (x : Nat) : Nat := rotr 7 x ^^^ rotr 18 x ^^^ (x >>> 3)
def ssig1 (x : Nat) : Nat := rotr 17 x ^^^ rotr 19 x ^^^ (x >>> 10)
def chF (x y z : Nat) : Nat := (x &&& y) ^^^ (bnot32 x &&& z)
def majF (x y z : Nat) : Nat := (x &&& y) ^^^ (x &&& z) ^^^ (y &&& z)

/-- The 64 SHA-256 round constants. -/
def shaK : List Nat :=
  [1116352408, 1899447441, 3049323471, 3921009573, 961987163,
   1508970993, 2453635748, 2870763221, 3624381080, 310598401,
   607225278, 1426881987, 1925078388, 2162078206, 2614888103,
   3248222580, 3835390401, 4022224774, 264347078, 604807628,
   770255983, 1249150122, 1555081692, 1996064986, 2554220882,
   2821834349, 2952996808, 3210313671, 3336571891, 3584528711,
   113926993, 338241895, 666307205, 773529912, 1294757372,
   1396182291, 1695183700, 1986661051, 2177026350, 2456956037,
   2730485921, 2820302411, 3259730800, 3345764771, 3516065817,
   3600352804, 4094571909, 275423344, 430227734, 506948616,
   659060556, 883997877, 958139571, 1322822218, 1537002063,
   1747873779, 1955562222, 2024104815, 2227730452, 2361852424,
   2428436474, 2756734187, 3204031479, 3329325298]

/-- The SHA-256 initial hash value. -/
def shaInit : List Nat :=
  [1779033703, 3144134277, 1013904242, 2773480762,
   1359893119, 2600822924, 528734635, 1541459225]

/-- Big-endian 4-byte serialization of a word. -/
def be32 (x : Nat) : List Nat :=
  [x / 16777216 % 256, x / 65536 % 256, x / 256 % 256, x % 256]

/-- Big-endian 8-byte serialization of the bit length. -/
def be64 (x : Nat) : List Nat :=
  [x / 72057594037927936 % 256, x / 281474976710656 % 256,
   x / 1099511627776 % 256, x / 4294967296 % 256,
   x / 16777216 % 256, x / 65536 % 256, x / 256 % 256, x % 256]

/-- Group a byte list into big-endian 32-bit words (four bytes each). -/
def toWords : List Nat → List Nat
  | b0 :: b1 :: b2 :: b3 :: rest =>
    (b0 * 16777216 + b1 * 65536 + b2 * 256 + b3) :: toWords rest
  | _ => []

/-- One extension step of the message schedule: append word t computed from
words t-2, t-7, t-15, t-16. -/
def schedStep (w : List Nat) : List Nat :=
  w ++ [w32 (ssig1 (w.getD (w.length - 2) 0) + w.getD (w.length - 7) 0 +
             ssig0 (w.getD (w.length - 15) 0) + w.getD (w.length - 16) 0)]

/-- The 64-word message schedule of one block. -/
def sched (block : List Nat) : List Nat := schedStep^[48] block

/-- One round of the SHA-256 compression function on the 8-word state. -/
def roundStep (kt wt : Nat) (st : List Nat) : List Nat :=
  match st with
  | [a, b, c, d, e, f, g, h] =>
    let t1 := w32 (h + bsig1 e + chF e f g + kt + wt)
    let t2 := w32 (bsig0 a + majF a b c)
    [w32 (t1 + t2), a, b, c, w32 (d + t1), e, f, g]
  | other => other

/-- SHA-256 compression of one 16-word block into the running hash. -/
def compress (h : List Nat) (block : List Nat) : List Nat :=
  let st := (List.zip shaK (sched block)).foldl (fun s kw => roundStep kw.1 kw.2 s) h
  List.zipWith (fun a b => w32 (a + b)) h st

/-- Split a list into chunks of 64 elements. -/
def chunks64 (l : List Nat) : List (List Nat) :=
  if h : l = [] then [] else l.take 64 :: chunks64 (l.drop 64)
termination_by l.length
decreasing_by
  simp [List.length_drop]
  cases l with
  | nil => exact absurd rfl h
  | cons a t => simp

/-- SHA-256 padding: the 0x80 byte, zeros to 56 mod 64, and the bit length
as a big-endian 8-byte integer. -/
def shaPad (msg : List Nat) : List Nat :=
  msg ++ 128 :: List.replicate ((119 - msg.length % 64) % 64) 0 ++ be64 (8 * msg.length)

/-- SHA-256 of a byte list, as a 32-byte digest (hashlib.sha256(...).digest()). -/
def sha256 (msg : List Nat) : List Nat :=
  (((chunks64 (shaPad msg)).map toWords).foldl compress shaInit).flatMap be32

/-! ## HMAC-SHA256 (hmac.new(key, msg, hashlib.sha256)) -/

/-- HMAC-SHA256 digest of a message under a key (both byte lists). -/
def hmacSha256 (key msg : List Nat) : List Nat :=
  let k0 := if 64 < key.length then sha256 key else key
  let kp := k0 ++ List.replicate (64 - k0.length) 0
  sha256 ((kp.map (fun b => b ^^^ 92)) ++ sha256 ((kp.map (fun b => b ^^^ 54)) ++ msg))

/-- Lowercase hex digit. -/
def hexDigitL (n : Nat) : Char :=
  if n < 10 then Char.ofNat (48 + n) else Char.ofNat (87 + n)

/-- Two lowercase hex digits of a byte (as in hexdigest()). -/
def hexByteL (b : Nat) : List Char :=
  [hexDigitL (b / 16 % 16), hexDigitL (b % 16)]

/-- Lowercase hex digest of HMAC-SHA256
(hmac.new(key, msg, hashlib.sha256).hexdigest()). -/
def hmacSha256Hex (key msg : List Nat) : String :=
  String.mk ((hmacSha256 key msg).flatMap hexByteL)

/-- Characters 0-9 and a-f: the alphabet of a lowercase hex digest. -/
def isLowerHexDigit (c : Char) : Bool :=
  (48 ≤ c.toNat ∧ c.toNat ≤ 57) ∨ (97 ≤ c.toNat ∧ c.toNat ≤ 102)

/-! ## The request signer (BinanceClient._sign, src/bot/client.py lines 55-63) -/

/-- The parameter dict after the two assignments
params[recvWindow] = 5000 and params[timestamp] = int(time.time() * 1000):
exactly the dict over which the query string is serialized for signing. -/
def presignParams (nowMs : Nat) (params : Params) : Params :=
  dictInsert (dictInsert params "recvWindow" "5000") "timestamp" (Nat.repr nowMs)

/-- The query string whose UTF-8 bytes are the HMAC message: urlencode of the
parameter dict before the signature is added. -/
def signedQuery (nowMs : Nat) (params : Params) : String :=
  urlencode (presignParams nowMs params)

/-- BinanceClient._sign: add recvWindow and timestamp, serialize the dict as
a query string, HMAC-SHA256 it under the UTF-8 secret bytes, and store the
lowercase hex digest under the key signature.  The returned dict is the
mutated argument dict. -/
def sign (secret : String) (nowMs : Nat) (params : Params) : Params :=
  dictInsert (presignParams nowMs params) "signature"
    (hmacSha256Hex (utf8encode secret)
      (utf8encode (urlencode (presignParams nowMs params))))

/-! ## Python decimal.Decimal values (src/bot/validators.py imports decimal) -/

/-- A Python Decimal value: finite (sign, integer coefficient, base-10
exponent), signed infinity, or NaN (quiet and signaling NaNs are collapsed:
both make order comparisons signal InvalidOperation). -/
inductive PyDecimal where
  | num (negative : Bool) (coeff : Nat) (exp : Int)
  | inf (negative : Bool)
  | nan
deriving DecidableEq

/-- JSON value, the result of response.json() of the requests library. -/
inductive JsonVal where
  | null
  | bool (b : Bool)
  | num (n : Int)
  | str (s : String)
  | arr (elems : List JsonVal)
  | obj (fields : List (String × JsonVal))

/-- The Python exceptions that the embedded code can raise, as a tagged
error kind: ValueError (validation failures), decimal.InvalidOperation
(NaN order comparisons), AttributeError (calling .get on a non-dict),
the JSONDecodeError of response.json() (a ValueError subclass, raised
with no handler on a non-JSON success body), the ConnectionError and
TimeoutError re-raised by _request on transport failures, and
BinanceAPIError carrying HTTP status, exchange code and message. -/
inductive PyErr where
  | valueError (msg : String)
  | invalidOperation
  | attributeError
  | jsonDecodeError
  | connectionError (msg : String)
  | timeoutError (msg : String)
  | binanceAPIError (status : Nat) (code msg : JsonVal)

/-! ### The decimal string parser (decimal.Decimal(str)) -/

/-- ASCII whitespace stripped by Python str.strip(). -/
def isPySpace (c : Char) : Bool :=
  c = ' ' ∨ c = '\t' ∨ c = '\n' ∨ c = '\r' ∨ c.toNat = 11 ∨ c.toNat = 12

/-- str.strip(): drop whitespace from both ends. -/
def stripChars (l : List Char) : List Char :=
  ((l.dropWhile isPySpace).reverse.dropWhile isPySpace).reverse

/-- Normalization the Decimal constructor performs before matching its
grammar: strip surrounding whitespace, delete underscores, and lowercase
(the grammar is matched case-insensitively). -/
def normNum (s : String) : List Char :=
  ((stripChars s.data).filter (fun c => c ≠ '_')).map Char.toLower

def isDigitC (c : Char) : Bool := 48 ≤ c.toNat ∧ c.toNat ≤ 57

/-- Value of a list of decimal digit characters (leading zeros allowed). -/
def digitsToNat (ds : List Char) : Nat :=
  ds.foldl (fun a c => 10 * a + (c.toNat - 48)) 0

/-- Parse a nonempty all-digit character list. -/
def parseUIntD (ds : List Char) : Option Nat :=
  if !ds.isEmpty && ds.all isDigitC then some (digitsToNat ds) else none

/-- Strip an optional leading sign, returning whether it was a minus. -/
def splitSignC : List Char → Bool × List Char
  | [] => (false, [])
  | c :: r => if c = '-' then (true, r) else if c = '+' then (false, r) else (false, c :: r)

/-- Parse the signed exponent digits after the E of a decimal literal. -/
def parseExpC (cs : List Char) : Option Int :=
  let sr := splitSignC cs
  (parseUIntD sr.2).map (fun n => if sr.1 then -(n : Int) else (n : Int))

/-- Parse the mantissa digits [.] digits (at least one digit in total) into
coefficient and fractional exponent. -/
def parseMantC (cs : List Char) : Option (Nat × Int) :=
  match splitSep '.' cs with
  | [ds] => (parseUIntD ds).map (fun n => (n, (0 : Int)))
  | [ds, fs] =>
    if !(ds ++ fs).isEmpty && (ds ++ fs).all isDigitC then
      some (digitsToNat (ds ++ fs), -(fs.length : Int))
    else none
  | _ => none

/-- Parse mantissa [e exponent]. -/
def parseNumeralC (cs : List Char) : Option (Nat × Int) :=
  match splitSep 'e' cs with
  | [m] => parseMantC m
  | [m, ex] =>
    match parseExpC ex, parseMantC m with
    | some e, some ce => some (ce.1, ce.2 + e)
    | _, _ => none
  | _ => none

/-- Grammar of the Decimal constructor after normalization: optional sign,
then infinity, NaN/sNaN with optional diagnostic digits, or a numeral. -/
def parseDecChars (cs : List Char) : Option PyDecimal :=
  let sr := splitSignC cs
  let rest := sr.2
  if rest = ['i', 'n', 'f'] ∨ rest = ['i', 'n', 'f', 'i', 'n', 'i', 't', 'y'] then
    some (.inf sr.1)
  else if rest.take 3 = ['n', 'a', 'n'] ∧ (rest.drop 3).all isDigitC then some .nan
  else if rest.take 4 = ['s', 'n', 'a', 'n'] ∧ (rest.drop 4).all isDigitC then some .nan
  else (parseNumeralC rest).map (fun ce => .num sr.1 ce.1 ce.2)

/-- decimal.Decimal(s) for a string s: some value, or none when the
constructor raises InvalidOperation (which every validator that calls it
catches and converts to ValueError). -/
def pyDecimalOfString (s : String) : Option PyDecimal :=
  parseDecChars (normNum s)

/-- Exact rational value of a finite Decimal; infinities and NaN have none. -/
def decimalToRat : PyDecimal → Option ℚ
  | .num neg c e => some ((if neg then -1 else 1) * (c : ℚ) * 10 ^ (e : ℤ))
  | _ => none

/-- The comparison d <= 0 on a Decimal: order comparisons against NaN raise
InvalidOperation, negative infinity is below zero, positive infinity is not,
and a finite value is at most zero exactly when its coefficient is zero or
its sign is negative. -/
def decimalLeZero : PyDecimal → Except PyErr Bool
  | .nan => .error .invalidOperation
  | .inf neg => .ok neg
  | .num neg c _ => .ok ((c == 0) || neg)

/-! ## Input validators (src/bot/validators.py) -/

/-- str.upper() (ASCII model). -/
def pyUpper (s : String) : String := String.mk (s.data.map Char.toUpper)

/-- str.strip(). -/
def pyStrip (s : String) : String := String.mk (stripChars s.data)

def VALID_ORDER_TYPES : List String :=
  ["MARKET", "LIMIT", "STOP", "STOP_MARKET", "TAKE_PROFIT", "TAKE_PROFIT_MARKET"]

def PRICE_REQUIRED_TYPES : List String := ["LIMIT", "STOP", "TAKE_PROFIT"]

def STOP_REQUIRED_TYPES : List String :=
  ["STOP", "STOP_MARKET", "TAKE_PROFIT", "TAKE_PROFIT_MARKET"]

/-- validators.validate_symbol. -/
def validate_symbol (symbol : String) : Except PyErr String :=
  let t := pyUpper (pyStrip symbol)
  if t.data.isEmpty || !t.data.all Char.isAlpha then
    .error (.valueError "Invalid symbol. Must be alphabetic (e.g. BTCUSDT).")
  else if t.data.length < 5 then
    .error (.valueError "Symbol looks too short. Expected something like BTCUSDT.")
  else .ok t

/-- validators.validate_side. -/
def validate_side (side : String) : Except PyErr String :=
  let t := pyUpper (pyStrip side)
  if t = "BUY" ∨ t = "SELL" then .ok t
  else .error (.valueError "Invalid side. Must be one of BUY, SELL.")

/-- validators.validate_order_type. -/
def validate_order_type (orderType : String) : Except PyErr String :=
  let t := pyUpper (pyStrip orderType)
  if VALID_ORDER_TYPES.contains t then .ok t
  else .error (.valueError "Invalid order type.")

/-- validators.validate_quantity, on the str() image of its argument.  The
try/except wraps only the Decimal construction; the comparison qty <= 0 sits
outside it, so an InvalidOperation it raises propagates uncaught. -/
def validate_quantity (quantity : String) : Except PyErr PyDecimal :=
  match pyDecimalOfString quantity with
  | none => .error (.valueError "Invalid quantity. Must be a positive number.")
  | some qty =>
    match decimalLeZero qty with
    | .error e => .error e
    | .ok true => .error (.valueError "Quantity must be > 0.")
    | .ok false => .ok qty

/-- validators.validate_price: the order type is consulted only when the
price is absent. -/
def validate_price (price : Option String) (orderType : String) :
    Except PyErr (Option PyDecimal) :=
  match price with
  | none =>
    if PRICE_REQUIRED_TYPES.contains orderType then
      .error (.valueError "Price is required for this order type.")
    else .ok none
  | some raw =>
    match pyDecimalOfString raw with
    | none => .error (.valueError "Invalid price. Must be a positive number.")
    | some p =>
      match decimalLeZero p with
      | .error e => .error e
      | .ok true => .error (.valueError "Price must be > 0.")
      | .ok false => .ok (some p)

/-- validators.validate_stop_price, symmetric to validate_price. -/
def validate_stop_price (stopPrice : Option String) (orderType : String) :
    Except PyErr (Option PyDecimal) :=
  match stopPrice with
  | none =>
    if STOP_REQUIRED_TYPES.contains orderType then
      .error (.valueError "Stop price is required for this order type.")
    else .ok none
  | some raw =>
    match pyDecimalOfString raw with
    | none => .error (.valueError "Invalid stop price. Must be a positive number.")
    | some sp =>
      match decimalLeZero sp with
      | .error e => .error e
      | .ok true => .error (.valueError "Stop price must be > 0.")
      | .ok false => .ok (some sp)

/-! ## Order placement (src/bot/orders.py) -/

def TIF_REQUIRED_TYPES : List String := ["LIMIT", "STOP", "TAKE_PROFIT"]

/-- orders._fmt: fixed-point formatting of a Decimal
(the format specification f never uses an exponent). -/
def fmtDecimal : PyDecimal → String
  | .num neg c e =>
    let ds := (Nat.repr c).data
    let s :=
      if 0 ≤ e then ds ++ List.replicate e.toNat '0'
      else
        let k := (-e).toNat
        let full := List.replicate (k + 1 - ds.length) '0' ++ ds
        full.take (full.length - k) ++ '.' :: full.drop (full.length - k)
    String.mk (if neg then '-' :: s else s)
  | .inf neg => if neg then "-Infinity" else "Infinity"
  | .nan => "NaN"

/-- The parameter dict built by orders.place_order before posting: base
fields, then price and stopPrice exactly when the corresponding validated
value is present, then timeInForce for the types that require it. -/
def orderParams (symbol side orderType : String) (quantity : PyDecimal)
    (price stopPrice : Option PyDecimal) (timeInForce : String) : Params :=
  let base := [("symbol", symbol), ("side", side), ("type", orderType),
               ("quantity", fmtDecimal quantity)]
  let withP :=
    match price with
    | some p => base ++ [("price", fmtDecimal p)]
    | none => base
  let withSP :=
    match stopPrice with
    | some sp => withP ++ [("stopPrice", fmtDecimal sp)]
    | none => withP
  if TIF_REQUIRED_TYPES.contains orderType then withSP ++ [("timeInForce", timeInForce)]
  else withSP

/-- The result of the validation pipeline of cli._execute_order. -/
structure ValidatedOrder where
  symbol : String
  side : String
  orderType : String
  quantity : PyDecimal
  price : Option PyDecimal
  stopPrice : Option PyDecimal
deriving DecidableEq

/-- cli._execute_order validation sequence: symbol, side, order type,
quantity, price, stop price, failing at the first error. -/
def executeOrderValidate (symbol side orderType quantity : String)
    (price stopPrice : Option String) : Except PyErr ValidatedOrder := do
  let sym ← validate_symbol symbol
  let sd ← validate_side side
  let t ← validate_order_type orderType
  let q ← validate_quantity quantity
  let p ← validate_price price t
  let sp ← validate_stop_price stopPrice t
  pure ⟨sym, sd, t, q, p, sp⟩

/-- The outgoing parameter dict of place_order for a validated order
(cli._execute_order passes no time_in_force, so the default GTC applies). -/
def orderParamsOf (v : ValidatedOrder) : Params :=
  orderParams v.symbol v.side v.orderType v.quantity v.price v.stopPrice "GTC"

/-- Full validation-plus-parameter-construction pipeline: the dict that
place_order submits, or the first validation error. -/
def pipelineParams (symbol side orderType quantity : String)
    (price stopPrice : Option String) : Except PyErr Params :=
  (executeOrderValidate symbol side orderType quantity price stopPrice).map orderParamsOf

/-! ## The gateway response mapping (BinanceClient._request, lines 85-97) -/

/-- Lookup in the field list of a JSON object. -/
def jsonLookup : List (String × JsonVal) → String → Option JsonVal
  | [], _ => none
  | f :: rest, k => if f.1 = k then some f.2 else jsonLookup rest k

/-- Python body.get(k, default): defined on dicts only; on any other
decoded JSON value the attribute access raises AttributeError. -/
def dictGet (v : JsonVal) (k : String) (dflt : JsonVal) : Except PyErr JsonVal :=
  match v with
  | .obj fields => .ok ((jsonLookup fields k).getD dflt)
  | _ => .error .attributeError

/-- The response mapping of _request once a response has arrived: body is
some decoded JSON value, or none when resp.json() raises (non-JSON body).
For status >= 400, code and msg are read from the body with the HTTP status
and raw text as defaults, and only that json() ValueError is caught; below
400 the decoded body is returned and a decode failure propagates as the
JSONDecodeError of resp.json(). -/
def handleResponse (status : Nat) (text : String) (body : Option JsonVal) :
    Except PyErr JsonVal :=
  if 400 ≤ status then
    match body with
    | some b =>
      match dictGet b "code" (.num (Int.ofNat status)) with
      | .error e => .error e
      | .ok code =>
        match dictGet b "msg" (.str text) with
        | .error e => .error e
        | .ok msg => .error (.binanceAPIError status code msg)
    | none => .error (.binanceAPIError status (.num (Int.ofNat status)) (.str text))
  else
    match body with
    | some b => .ok b
    | none => .error .jsonDecodeError

/-- What the transport layer produced for one call: a response (with its
status, raw text, and decoded JSON body when decodable), a connection
failure, or a timeout. -/
inductive TransportResult where
  | response (status : Nat) (text : String) (body : Option JsonVal)
  | connFail (msg : String)
  | timedOut (msg : String)

/-- _request as a whole, given the transport outcome: connection errors and
timeouts are re-raised as ConnectionError and TimeoutError, responses go
through the response mapping. -/
def gatewayCall (t : TransportResult) : Except PyErr JsonVal :=
  match t with
  | .connFail m => .error (.connectionError m)
  | .timedOut m => .error (.timeoutError m)
  | .response status text body => handleResponse status text body

/-- One gateway call as seen by the caller of _request: the caller's dict
when the call returns, and the dict actually transmitted. -/
structure GatewayCallEffect where
  callerParamsAfter : Params
  sentParams : Params
deriving DecidableEq

/-- Parameter handling of _request: params = dict(params or {}) rebinds the
local name to a fresh dict holding the same items, so the in-place mutation
of _sign touches only that copy; the caller's dict is never written.
Unsigned calls transmit the copy as-is, i.e. the caller's items unchanged. -/
def requestEffect (callerParams : Params) (signed : Bool) (secret : String)
    (nowMs : Nat) : GatewayCallEffect :=
  let copy := callerParams
  { callerParamsAfter := callerParams
    sentParams := if signed then sign secret nowMs copy else copy }

/-! # Lemmas

First, injectivity of the query-string serialization (UTF-8 plus quote_plus
plus the ampersand/equals joining), established through explicit partial
inverses. -/

theorem charToNatLt (c : Char) : c.toNat < 1114112 := by
  have h1 : c.toNat = c.val.toNat := rfl
  rcases c.valid with h | h
  · omega
  · omega

theorem charToNatInj {c d : Char} (h : c.toNat = d.toNat) : c = d := by
  apply Char.ext
  have h1 : c.toNat = c.val.toNat := rfl
  have h2 : d.toNat = d.val.toNat := rfl
  apply UInt32.toNat.inj
  omega

theorem utf8encodeChar_lt_256 (c : Nat) (hc : c < 1114112) :
    ∀ b ∈ utf8encodeChar c, b < 256 := by
  unfold utf8encodeChar
  split_ifs with h1 h2 h3
  · intro b hb
    simp only [List.mem_singleton] at hb
    omega
  · intro b hb
    simp only [List.mem_cons, List.mem_singleton, List.not_mem_nil, or_false] at hb
    rcases hb with rfl | rfl <;> omega
  · intro b hb
    simp only [List.mem_cons, List.mem_singleton, List.not_mem_nil, or_false] at hb
    rcases hb with rfl | rfl | rfl <;> omega
  · intro b hb
    simp only [List.mem_cons, List.mem_singleton, List.not_mem_nil, or_false] at hb
    rcases hb with rfl | rfl | rfl | rfl <;> omega

theorem utf8decode_one (b : Nat) (hb : b < 192) (l : List Nat) :
    utf8decode (b :: l) = b :: utf8decode l := by
  rw [utf8decode, utf8decodeHead, if_pos hb, utf8charLen, if_pos hb]
  simp

theorem utf8decode_two (b b1 : Nat) (hb : 192 ≤ b) (hb2 : b < 224) (l : List Nat) :
    utf8decode (b :: b1 :: l) = ((b - 192) * 64 + (b1 - 128)) :: utf8decode l := by
  have h1 : ¬ b < 192 := by omega
  rw [utf8decode, utf8decodeHead, if_neg h1, if_pos hb2, utf8charLen, if_neg h1, if_pos hb2]
  simp

theorem utf8decode_three (b b1 b2 : Nat) (hb : 224 ≤ b) (hb2 : b < 240) (l : List Nat) :
    utf8decode (b :: b1 :: b2 :: l) =
      ((b - 224) * 4096 + (b1 - 128) * 64 + (b2 - 128)) :: utf8decode l := by
  have h1 : ¬ b < 192 := by omega
  have h2 : ¬ b < 224 := by omega
  rw [utf8decode, utf8decodeHead, if_neg h1, if_neg h2, if_pos hb2,
    utf8charLen, if_neg h1, if_neg h2, if_pos hb2]
  simp [List.getD]

theorem utf8decode_four (b b1 b2 b3 : Nat) (hb : 240 ≤ b) (l : List Nat) :
    utf8decode (b :: b1 :: b2 :: b3 :: l) =
      ((b - 240) * 262144 + (b1 - 128) * 4096 + (b2 - 128) * 64 + (b3 - 128)) ::
        utf8decode l := by
  have h1 : ¬ b < 192 := by omega
  have h2 : ¬ b < 224 := by omega
  have h3 : ¬ b < 240 := by omega
  rw [utf8decode, utf8decodeHead, if_neg h1, if_neg h2, if_neg h3,
    utf8charLen, if_neg h1, if_neg h2, if_neg h3]
  simp [List.getD]

theorem utf8decode_encode (cs : List Nat) (h : ∀ c ∈ cs, c < 1114112) :
    utf8decode (cs.flatMap utf8encodeChar) = cs := by
  induction cs with
  | nil =>
    simp only [List.flatMap_nil]
    rw [utf8decode]
  | cons c rest ih =>
    have hc : c < 1114112 := h c (by simp)
    have ih2 := ih (fun x hx => h x (by simp [hx]))
    simp only [List.flatMap_cons]
    by_cases h1 : c < 128
    · rw [utf8encodeChar, if_pos h1, List.cons_append, List.nil_append,
        utf8decode_one c (by omega), ih2]
    · by_cases h2 : c < 2048
      · rw [utf8encodeChar, if_neg h1, if_pos h2, List.cons_append, List.cons_append,
          List.nil_append, utf8decode_two (192 + c / 64) (128 + c % 64) (by omega) (by omega),
          ih2]
        congr 1
        omega
      · by_cases h3 : c < 65536
        · rw [utf8encodeChar, if_neg h1, if_neg h2, if_pos h3, List.cons_append,
            List.cons_append, List.cons_append, List.nil_append,
            utf8decode_three (224 + c / 4096) (128 + c / 64 % 64) (128 + c % 64)
              (by omega) (by omega), ih2]
          congr 1
          omega
        · rw [utf8encodeChar, if_neg h1, if_neg h2, if_neg h3, List.cons_append,
            List.cons_append, List.cons_append, List.cons_append, List.nil_append,
            utf8decode_four (240 + c / 262144) (128 + c / 4096 % 64) (128 + c / 64 % 64)
              (128 + c % 64) (by omega), ih2]
          congr 1
          omega

theorem utf8encode_eq_flatMap (s : String) :
    utf8encode s = (s.data.map Char.toNat).flatMap utf8encodeChar := by
  rw [utf8encode, List.flatMap_map]

theorem utf8encode_inj {s t : String} (h : utf8encode s = utf8encode t) : s = t := by
  have hs := utf8decode_encode (s.data.map Char.toNat)
    (by intro c hc; simp only [List.mem_map] at hc; obtain ⟨a, _, rfl⟩ := hc; exact charToNatLt a)
  have ht := utf8decode_encode (t.data.map Char.toNat)
    (by intro c hc; simp only [List.mem_map] at hc; obtain ⟨a, _, rfl⟩ := hc; exact charToNatLt a)
  rw [utf8encode_eq_flatMap, utf8encode_eq_flatMap] at h
  rw [h, ht] at hs
  have hdata : s.data = t.data :=
    (List.map_injective_iff.mpr (fun a b hab => charToNatInj hab) hs).symm
  exact congrArg String.mk hdata

theorem utf8encode_lt_256 (s : String) : ∀ b ∈ utf8encode s, b < 256 := by
  intro b hb
  rw [utf8encode] at hb
  simp only [List.mem_flatMap] at hb
  obtain ⟨c, _, hbc⟩ := hb
  exact utf8encodeChar_lt_256 c.toNat (charToNatLt c) b hbc

theorem charOfNat_toNat (n : Nat) (h : n < 55296) : (Char.ofNat n).toNat = n := by
  have hv : Nat.isValidChar n := Or.inl h
  simp [Char.ofNat, hv, Char.toNat, Char.ofNatAux, UInt32.ofNat', UInt32.toNat]

theorem isSafeByte_range (b : Nat) (hs : isSafeByte b = true) :
    (48 ≤ b ∧ b ≤ 57) ∨ (65 ≤ b ∧ b ≤ 90) ∨ (97 ≤ b ∧ b ≤ 122) ∨
      b = 95 ∨ b = 46 ∨ b = 45 ∨ b = 126 := by
  simpa [isSafeByte] using hs

theorem hexDigitU_toNat (n : Nat) (h : n < 16) :
    (hexDigitU n).toNat = if n < 10 then 48 + n else 55 + n := by
  rw [hexDigitU]
  split_ifs with h1 <;> rw [charOfNat_toNat _ (by omega)]

theorem hexValU_hexDigitU (n : Nat) (h : n < 16) : hexValU (hexDigitU n) = n := by
  have ht := hexDigitU_toNat n h
  rw [hexValU, ht]
  split_ifs at * <;> omega

theorem char_ne_of_toNat_ne {c d : Char} (h : c.toNat ≠ d.toNat) : c ≠ d :=
  fun he => h (congrArg Char.toNat he)

theorem unquote_quoteByte (b : Nat) (hb : b < 256) (rest : List Char) :
    unquoteChars (quoteByte b ++ rest) = b :: unquoteChars rest := by
  rw [quoteByte]
  by_cases hs : isSafeByte b
  · rw [if_pos hs]
    have hr := isSafeByte_range b hs
    have ht : (Char.ofNat b).toNat = b := charOfNat_toNat b (by omega)
    have hpct : ('%').toNat = 37 := rfl
    have hplus : ('+').toNat = 43 := rfl
    have h1 : Char.ofNat b ≠ '%' := char_ne_of_toNat_ne (by omega)
    have h2 : Char.ofNat b ≠ '+' := char_ne_of_toNat_ne (by omega)
    rw [List.cons_append, List.nil_append, unquoteChars, unquoteHead,
      if_neg h1, if_neg h2, ht, quoteLen, if_neg h1]
    simp
  · rw [if_neg hs]
    by_cases h32 : b = 32
    · subst h32
      rw [if_pos rfl, List.cons_append, List.nil_append, unquoteChars, unquoteHead,
        if_neg (by decide), if_pos rfl, quoteLen, if_neg (by decide)]
      simp
    · rw [if_neg h32, List.cons_append, List.cons_append, List.cons_append,
        List.nil_append, unquoteChars, unquoteHead, if_pos rfl, quoteLen, if_pos rfl]
      simp only [List.getD_cons_zero, List.getD_cons_succ]
      rw [hexValU_hexDigitU _ (by omega), hexValU_hexDigitU _ (by omega)]
      simp only [List.drop_succ_cons, List.drop_zero, List.cons.injEq]
      exact ⟨by omega, trivial⟩

theorem unquote_quoteBytes (bs : List Nat) (h : ∀ b ∈ bs, b < 256) :
    unquoteChars (bs.flatMap quoteByte) = bs := by
  induction bs with
  | nil => rw [List.flatMap_nil, unquoteChars]
  | cons b rest ih =>
    rw [List.flatMap_cons, unquote_quoteByte b (h b (by simp)) _,
      ih (fun x hx => h x (by simp [hx]))]

theorem quotePlusChars_inj {s t : String} (h : quotePlusChars s = quotePlusChars t) :
    s = t := by
  have hs := unquote_quoteBytes (utf8encode s) (utf8encode_lt_256 s)
  have ht := unquote_quoteBytes (utf8encode t) (utf8encode_lt_256 t)
  rw [quotePlusChars, quotePlusChars] at h
  rw [h, ht] at hs
  exact (utf8encode_inj hs).symm

theorem quoteByte_no_seps (b : Nat) (hb : b < 256) :
    '&' ∉ quoteByte b ∧ '=' ∉ quoteByte b := by
  rw [quoteByte]
  by_cases hs : isSafeByte b
  · rw [if_pos hs]
    have hr := isSafeByte_range b hs
    have ht : (Char.ofNat b).toNat = b := charOfNat_toNat b (by omega)
    have hamp : ('&').toNat = 38 := rfl
    have heq : ('=').toNat = 61 := rfl
    constructor
    · simp only [List.mem_singleton]
      exact fun he => absurd (congrArg Char.toNat he) (by omega)
    · simp only [List.mem_singleton]
      exact fun he => absurd (congrArg Char.toNat he) (by omega)
  · rw [if_neg hs]
    by_cases h32 : b = 32
    · subst h32
      rw [if_pos rfl]
      constructor <;> decide
    · rw [if_neg h32]
      have hd1 := hexDigitU_toNat (b / 16 % 16) (by omega)
      have hd2 := hexDigitU_toNat (b % 16) (by omega)
      have hamp : ('&').toNat = 38 := rfl
      have heq : ('=').toNat = 61 := rfl
      constructor
      · simp only [List.mem_cons, List.not_mem_nil, or_false]
        rintro (he | he | he)
        · exact absurd he (by decide)
        · exact absurd (congrArg Char.toNat he) (by split_ifs at hd1 <;> omega)
        · exact absurd (congrArg Char.toNat he) (by split_ifs at hd2 <;> omega)
      · simp only [List.mem_cons, List.not_mem_nil, or_false]
        rintro (he | he | he)
        · exact absurd he (by decide)
        · exact absurd (congrArg Char.toNat he) (by split_ifs at hd1 <;> omega)
        · exact absurd (congrArg Char.toNat he) (by split_ifs at hd2 <;> omega)

theorem quotePlusChars_no_seps (s : String) :
    '&' ∉ quotePlusChars s ∧ '=' ∉ quotePlusChars s := by
  constructor <;>
    · rw [quotePlusChars]
      intro hmem
      simp only [List.mem_flatMap] at hmem
      obtain ⟨b, hbmem, hbc⟩ := hmem
      have hb := utf8encode_lt_256 s b hbmem
      first
      | exact (quoteByte_no_seps b hb).1 hbc
      | exact (quoteByte_no_seps b hb).2 hbc

theorem splitSep_no_sep (sep : Char) (l : List Char) (h : sep ∉ l) :
    splitSep sep l = [l] := by
  induction l with
  | nil => rfl
  | cons c rest ih =>
    have hc : ¬ c = sep := fun he => h (he ▸ List.mem_cons_self c rest)
    have h2 : sep ∉ rest := fun hmem => h (List.mem_cons_of_mem c hmem)
    simp only [splitSep]
    rw [ih h2]
    simp [hc]

theorem splitSep_append (sep : Char) (x rest : List Char) (hx : sep ∉ x) :
    splitSep sep (x ++ sep :: rest) = x :: splitSep sep rest := by
  induction x with
  | nil =>
    simp only [List.nil_append, splitSep]
    simp
  | cons c t ih =>
    have hc : ¬ c = sep := fun he => hx (he ▸ List.mem_cons_self c t)
    have h2 : sep ∉ t := fun hmem => hx (List.mem_cons_of_mem c hmem)
    simp only [List.cons_append, splitSep, List.append_eq]
    rw [ih h2]
    simp [hc]

theorem joinSep_cons_cons (sep : Char) (x y : List Char) (u : List (List Char)) :
    joinSep sep (x :: y :: u) = x ++ sep :: joinSep sep (y :: u) := rfl

theorem splitSep_joinSep (sep : Char) (xs : List (List Char)) (hne : xs ≠ [])
    (h : ∀ x ∈ xs, sep ∉ x) : splitSep sep (joinSep sep xs) = xs := by
  induction xs with
  | nil => exact absurd rfl hne
  | cons x t ih =>
    cases t with
    | nil => exact splitSep_no_sep sep x (h x (by simp))
    | cons y u =>
      rw [joinSep_cons_cons, splitSep_append sep x _ (h x (by simp)),
        ih (by simp) (fun z hz => h z (by simp [hz]))]

theorem encodePair_split (p : String × String) :
    splitSep '=' (encodePair p) = [quotePlusChars p.1, quotePlusChars p.2] := by
  rw [encodePair, splitSep_append '=' _ _ (quotePlusChars_no_seps p.1).2,
    splitSep_no_sep '=' _ (quotePlusChars_no_seps p.2).2]

theorem encodePair_inj {p q : String × String} (h : encodePair p = encodePair q) :
    p = q := by
  have hp := encodePair_split p
  rw [h, encodePair_split q] at hp
  simp only [List.cons.injEq, and_true] at hp
  obtain ⟨h1, h2⟩ := hp
  exact Prod.ext (quotePlusChars_inj h1.symm) (quotePlusChars_inj h2.symm)

theorem encodePair_ne_nil (p : String × String) : encodePair p ≠ [] := by
  rw [encodePair]
  simp

theorem encodePair_no_amp (p : String × String) : '&' ∉ encodePair p := by
  rw [encodePair]
  intro hmem
  rcases List.mem_append.mp hmem with hl | hr
  · exact (quotePlusChars_no_seps p.1).1 hl
  · rcases List.mem_cons.mp hr with he | ht
    · exact absurd he (by decide)
    · exact (quotePlusChars_no_seps p.2).1 ht

theorem joinSep_pairs_ne_nil (p : String × String) (t : List (String × String)) :
    joinSep '&' ((p :: t).map encodePair) ≠ [] := by
  cases t with
  | nil => exact encodePair_ne_nil p
  | cons q u =>
    rw [List.map_cons, List.map_cons, joinSep_cons_cons]
    simp

theorem urlencode_inj {m1 m2 : Params} (h : urlencode m1 = urlencode m2) :
    m1 = m2 := by
  have hj : joinSep '&' (m1.map encodePair) = joinSep '&' (m2.map encodePair) := by
    have hd := congrArg String.data h
    simpa [urlencode] using hd
  cases m1 with
  | nil =>
    cases m2 with
    | nil => rfl
    | cons q u => exact absurd hj.symm (joinSep_pairs_ne_nil q u)
  | cons p t =>
    cases m2 with
    | nil => exact absurd hj (joinSep_pairs_ne_nil p t)
    | cons q u =>
      have hfree1 : ∀ x ∈ (p :: t).map encodePair, '&' ∉ x := by
        intro x hx
        simp only [List.mem_map] at hx
        obtain ⟨a, _, rfl⟩ := hx
        exact encodePair_no_amp a
      have hfree2 : ∀ x ∈ (q :: u).map encodePair, '&' ∉ x := by
        intro x hx
        simp only [List.mem_map] at hx
        obtain ⟨a, _, rfl⟩ := hx
        exact encodePair_no_amp a
      have r1 := splitSep_joinSep '&' ((p :: t).map encodePair) (by simp) hfree1
      rw [hj, splitSep_joinSep '&' ((q :: u).map encodePair) (by simp) hfree2] at r1
      exact (List.map_injective_iff.mpr (fun a b hab => encodePair_inj hab) r1).symm

/-! ## Dict lemmas -/

theorem updF_fst (k v : String) (p : String × String) : (updF k v p).1 = p.1 := by
  rw [updF]
  split_ifs with h
  · exact h.symm
  · rfl

theorem hasKey_map_updF (m : Params) (k' v k : String) :
    hasKey (m.map (updF k' v)) k = hasKey m k := by
  rw [hasKey, hasKey, List.any_map]
  congr 1
  funext p
  simp [Function.comp, updF_fst]

theorem hasKey_dictInsert_other (m : Params) (k k' v : String) (h : ¬ k' = k) :
    hasKey (dictInsert m k' v) k = hasKey m k := by
  rw [dictInsert]
  split_ifs with hm
  · exact hasKey_map_updF m k' v k
  · simp [hasKey, List.any_append, h]

theorem dictInsert_absent (m : Params) (k v : String) (h : hasKey m k = false) :
    dictInsert m k v = m ++ [(k, v)] := by
  rw [dictInsert, if_neg (by simp [h])]

theorem getVal_append_left (m rest : Params) (k : String) (h : hasKey m k = true) :
    getVal (m ++ rest) k = getVal m k := by
  induction m with
  | nil => simp [hasKey] at h
  | cons p t ih =>
    by_cases hp : p.1 = k
    · rw [List.cons_append, getVal, if_pos hp, getVal, if_pos hp]
    · have ht : hasKey t k = true := by
        simpa [hasKey, hp] using h
      rw [List.cons_append, getVal, if_neg hp, getVal, if_neg hp, ih ht]

theorem getVal_append_absent (m : Params) (k v : String) (h : hasKey m k = false) :
    getVal (m ++ [(k, v)]) k = some v := by
  induction m with
  | nil => simp [getVal]
  | cons p t ih =>
    have hp : ¬ p.1 = k := by
      intro he
      simp [hasKey, he] at h
    have ht : hasKey t k = false := by
      simpa [hasKey, hp] using h
    rw [List.cons_append, getVal, if_neg hp, ih ht]

theorem getVal_map_updF_self (m : Params) (k v : String) (h : hasKey m k = true) :
    getVal (m.map (updF k v)) k = some v := by
  induction m with
  | nil => simp [hasKey] at h
  | cons p t ih =>
    by_cases hp : p.1 = k
    · rw [List.map_cons, getVal, updF, if_pos hp]
      simp
    · have ht : hasKey t k = true := by
        simpa [hasKey, hp] using h
      rw [List.map_cons, getVal, updF, if_neg hp, if_neg hp]
      exact ih ht

theorem getVal_dictInsert_self (m : Params) (k v : String) :
    getVal (dictInsert m k v) k = some v := by
  rw [dictInsert]
  split_ifs with hm
  · exact getVal_map_updF_self m k v hm
  · exact getVal_append_absent m k v (by simpa using hm)

theorem getVal_map_updF_other (m : Params) (k k' v : String) (h : ¬ k' = k) :
    getVal (m.map (updF k' v)) k = getVal m k := by
  induction m with
  | nil => rfl
  | cons p t ih =>
    rw [List.map_cons, getVal, getVal, updF_fst]
    by_cases hp : p.1 = k
    · rw [if_pos hp, if_pos hp, updF, if_neg (by rw [hp]; intro he; exact h he.symm)]
    · rw [if_neg hp, if_neg hp, ih]

theorem getVal_append_single_other (m : Params) (k k' v : String) (h : ¬ k' = k) :
    getVal (m ++ [(k', v)]) k = getVal m k := by
  induction m with
  | nil => simp [getVal, h]
  | cons p t ih =>
    rw [List.cons_append, getVal, getVal]
    by_cases hp : p.1 = k
    · rw [if_pos hp, if_pos hp]
    · rw [if_neg hp, if_neg hp, ih]

theorem getVal_dictInsert_other (m : Params) (k k' v : String) (h : ¬ k' = k) :
    getVal (dictInsert m k' v) k = getVal m k := by
  rw [dictInsert]
  split_ifs with hm
  · exact getVal_map_updF_other m k k' v h
  · exact getVal_append_single_other m k k' v h

theorem dictInsert_mid (pre post : Params) (k k' v w : String) (hk : ¬ k = k') :
    dictInsert (pre ++ (k, v) :: post) k' w =
      (if hasKey pre k' || hasKey post k' then pre.map (updF k' w) else pre) ++ (k, v) ::
        (if hasKey pre k' || hasKey post k' then post.map (updF k' w)
         else post ++ [(k', w)]) := by
  rw [dictInsert]
  have hh : hasKey (pre ++ (k, v) :: post) k' = (hasKey pre k' || hasKey post k') := by
    simp [hasKey, List.any_append, hk]
  rw [hh]
  by_cases hc : (hasKey pre k' || hasKey post k') = true
  · rw [if_pos hc, if_pos hc, if_pos hc, List.map_append, List.map_cons]
    have hmid : updF k' w (k, v) = (k, v) := by
      rw [updF, if_neg]
      simpa using hk
    rw [hmid]
  · rw [if_neg hc, if_neg hc, if_neg hc]
    simp

/-! ## Digest shape lemmas -/

theorem roundStep_length (kt wt : Nat) (st : List Nat) (h : st.length = 8) :
    (roundStep kt wt st).length = 8 := by
  rcases st with _ | ⟨a, _ | ⟨b, _ | ⟨c, _ | ⟨d, _ | ⟨e, _ | ⟨f, _ | ⟨g, _ | ⟨i, _ | ⟨j, t⟩⟩⟩⟩⟩⟩⟩⟩⟩ <;>
    simp_all [roundStep]

theorem foldl_roundStep_length (l : List (Nat × Nat)) (st : List Nat) (h : st.length = 8) :
    (l.foldl (fun s kw => roundStep kw.1 kw.2 s) st).length = 8 := by
  induction l generalizing st with
  | nil => exact h
  | cons kw t ih => exact ih _ (roundStep_length kw.1 kw.2 st h)

theorem compress_length (h : List Nat) (block : List Nat) (hl : h.length = 8) :
    (compress h block).length = 8 := by
  rw [compress, List.length_zipWith, foldl_roundStep_length _ _ hl, hl]
  simp

theorem foldl_compress_length (blocks : List (List Nat)) (acc : List Nat)
    (h : acc.length = 8) : (blocks.foldl compress acc).length = 8 := by
  induction blocks generalizing acc with
  | nil => exact h
  | cons b t ih => exact ih _ (compress_length acc b h)

theorem flatMap_be32_length (l : List Nat) : (l.flatMap be32).length = 4 * l.length := by
  induction l with
  | nil => rfl
  | cons x t ih =>
    rw [List.flatMap_cons, List.length_append, ih]
    simp [be32]
    ring

theorem sha256_length (msg : List Nat) : (sha256 msg).length = 32 := by
  rw [sha256, flatMap_be32_length, foldl_compress_length _ _ (by rfl)]

theorem hmacSha256_length (key msg : List Nat) : (hmacSha256 key msg).length = 32 := by
  rw [hmacSha256]
  exact sha256_length _

theorem flatMap_hexByteL_length (l : List Nat) :
    (l.flatMap hexByteL).length = 2 * l.length := by
  induction l with
  | nil => rfl
  | cons x t ih =>
    rw [List.flatMap_cons, List.length_append, ih]
    simp [hexByteL]
    ring

theorem hexDigitL_toNat (n : Nat) (h : n < 16) :
    (hexDigitL n).toNat = if n < 10 then 48 + n else 87 + n := by
  rw [hexDigitL]
  split_ifs with h1 <;> rw [charOfNat_toNat _ (by omega)]

theorem hexByteL_isLowerHex (b : Nat) : ∀ c ∈ hexByteL b, isLowerHexDigit c = true := by
  intro c hc
  rw [hexByteL] at hc
  simp only [List.mem_cons, List.not_mem_nil, or_false] at hc
  rcases hc with rfl | rfl <;>
  · rw [isLowerHexDigit]
    first
    | (have ht := hexDigitL_toNat (b / 16 % 16) (by omega)
       split_ifs at ht <;> simp [ht] <;> omega)
    | (have ht := hexDigitL_toNat (b % 16) (by omega)
       split_ifs at ht <;> simp [ht] <;> omega)

theorem hmacSha256Hex_length (key msg : List Nat) :
    (hmacSha256Hex key msg).data.length = 64 := by
  rw [hmacSha256Hex]
  show ((hmacSha256 key msg).flatMap hexByteL).length = 64
  rw [flatMap_hexByteL_length, hmacSha256_length]

theorem hmacSha256Hex_chars (key msg : List Nat) :
    ∀ c ∈ (hmacSha256Hex key msg).data, isLowerHexDigit c = true := by
  intro c hc
  rw [hmacSha256Hex] at hc
  replace hc : c ∈ (hmacSha256 key msg).flatMap hexByteL := hc
  simp only [List.mem_flatMap] at hc
  obtain ⟨b, _, hbc⟩ := hc
  exact hexByteL_isLowerHex b c hbc

/-! ## Signer lemmas -/

theorem presignParams_absent (nowMs : Nat) (params : Params)
    (h1 : hasKey params "recvWindow" = false) (h2 : hasKey params "timestamp" = false) :
    presignParams nowMs params =
      params ++ [("recvWindow", "5000"), ("timestamp", Nat.repr nowMs)] := by
  have hmid : hasKey (params ++ [("recvWindow", "5000")]) "timestamp" = false := by
    rw [hasKey, List.any_append]
    simp only [Bool.or_eq_false_iff]
    exact ⟨h2, by decide⟩
  rw [presignParams, dictInsert_absent _ _ _ h1, dictInsert_absent _ _ _ hmid,
    List.append_assoc]
  rfl

theorem hasKey_presign_signature (nowMs : Nat) (params : Params)
    (h3 : hasKey params "signature" = false) :
    hasKey (presignParams nowMs params) "signature" = false := by
  rw [presignParams, hasKey_dictInsert_other _ _ _ _ (by decide),
    hasKey_dictInsert_other _ _ _ _ (by decide)]
  exact h3

theorem sign_eq_append (secret : String) (nowMs : Nat) (params : Params)
    (h3 : hasKey params "signature" = false) :
    sign secret nowMs params =
      presignParams nowMs params ++
        [("signature",
          hmacSha256Hex (utf8encode secret) (utf8encode (signedQuery nowMs params)))] := by
  rw [sign, dictInsert_absent _ _ _ (hasKey_presign_signature nowMs params h3), signedQuery]

theorem getVal_presign_recvWindow (nowMs : Nat) (params : Params) :
    getVal (presignParams nowMs params) "recvWindow" = some "5000" := by
  rw [presignParams, getVal_dictInsert_other _ _ _ _ (by decide),
    getVal_dictInsert_self]

theorem getVal_presign_timestamp (nowMs : Nat) (params : Params) :
    getVal (presignParams nowMs params) "timestamp" = some (Nat.repr nowMs) := by
  rw [presignParams, getVal_dictInsert_self]

theorem getVal_sign_signature (secret : String) (nowMs : Nat) (params : Params) :
    getVal (sign secret nowMs params) "signature" =
      some (hmacSha256Hex (utf8encode secret) (utf8encode (signedQuery nowMs params))) := by
  rw [sign, signedQuery, getVal_dictInsert_self]

/-! # Claim theorems: the signer (C1, C5, C10) -/

/-- C1 (amended: provided the parameter mapping does not already contain a
signature key, which dict assignment would overwrite in place instead of
appending): _sign sets recvWindow = 5000 and the millisecond timestamp,
serializes all key-value pairs (those two included) into one query string in
insertion order with standard URL percent-encoding (urlencode), computes
HMAC-SHA256 over the UTF-8 bytes of exactly that query string keyed by the
UTF-8 secret bytes, and appends the lowercase hex digest (64 lowercase hex
characters) as a final signature field; the signed query string is built
from the dict before the signature is stored, so it contains no signature
field. -/
theorem sign_algorithm (secret : String) (nowMs : Nat) (params : Params)
    (h3 : hasKey params "signature" = false) :
    sign secret nowMs params =
        presignParams nowMs params ++
          [("signature",
            hmacSha256Hex (utf8encode secret)
              (utf8encode (urlencode (presignParams nowMs params))))] ∧
      getVal (presignParams nowMs params) "recvWindow" = some "5000" ∧
      getVal (presignParams nowMs params) "timestamp" = some (Nat.repr nowMs) ∧
      hasKey (presignParams nowMs params) "signature" = false ∧
      (hmacSha256Hex (utf8encode secret)
        (utf8encode (urlencode (presignParams nowMs params)))).data.length = 64 ∧
      ∀ c ∈ (hmacSha256Hex (utf8encode secret)
        (utf8encode (urlencode (presignParams nowMs params)))).data,
          isLowerHexDigit c = true := by
  refine ⟨?_, getVal_presign_recvWindow nowMs params, getVal_presign_timestamp nowMs params,
    hasKey_presign_signature nowMs params h3, hmacSha256Hex_length _ _,
    hmacSha256Hex_chars _ _⟩
  have hs := sign_eq_append secret nowMs params h3
  rwa [signedQuery] at hs

/-- Witness for C1 at a concrete input. -/
theorem sign_algorithm_witness :
    hasKey [("symbol", "BTCUSDT")] "signature" = false ∧
      getVal (presignParams 3 [("symbol", "BTCUSDT")]) "recvWindow" = some "5000" :=
  ⟨by decide, (sign_algorithm "k" 3 [("symbol", "BTCUSDT")] (by decide)).2.1⟩

/-- C1 counterexample: on a mapping that already contains a signature key,
dict assignment overwrites that entry in place, so the signature is not a
final field (the key order of the result is signature, recvWindow,
timestamp) and the query string that is HMACed is serialized from a dict
that does contain a signature field. -/
theorem sign_existing_signature_counterexample :
    (sign "k" 5 [("signature", "x")]).map Prod.fst =
        ["signature", "recvWindow", "timestamp"] ∧
      hasKey (presignParams 5 [("signature", "x")]) "signature" = true ∧
      getVal (sign "k" 5 [("signature", "x")]) "signature" =
        some (hmacSha256Hex (utf8encode "k")
          (utf8encode (signedQuery 5 [("signature", "x")]))) :=
  ⟨rfl, by decide, getVal_sign_signature "k" 5 [("signature", "x")]⟩

/-- C5 (amended): the signer is a pure function of params, secret and
timestamp (repeated invocations agree); changing a single parameter value
under a key other than recvWindow and timestamp changes the query string the
signature is computed over (the stored signature is exactly the HMAC of that
query string, so distinct signatures then fail only on an HMAC-SHA256
collision); a changed recvWindow or timestamp value is overwritten before
serialization, and an infinite value domain cannot map injectively into
fixed-length digests, so the literal claim that every value change changes
the signature does not hold. -/
theorem sign_deterministic_query_sensitive :
    (∀ (s1 s2 : String) (n1 n2 : Nat) (p1 p2 : Params),
        s1 = s2 → n1 = n2 → p1 = p2 → sign s1 n1 p1 = sign s2 n2 p2) ∧
      (∀ (pre post : Params) (k v v' : String) (nowMs : Nat),
        ¬ k = "recvWindow" → ¬ k = "timestamp" → ¬ v = v' →
          ¬ signedQuery nowMs (pre ++ (k, v) :: post) =
            signedQuery nowMs (pre ++ (k, v') :: post)) ∧
      ∀ (secret : String) (nowMs : Nat) (params : Params),
        getVal (sign secret nowMs params) "signature" =
          some (hmacSha256Hex (utf8encode secret) (utf8encode (signedQuery nowMs params))) := by
  refine ⟨?_, ?_, fun secret nowMs params => getVal_sign_signature secret nowMs params⟩
  · rintro s1 s2 n1 n2 p1 p2 rfl rfl rfl
    rfl
  · intro pre post k v v' nowMs hk1 hk2 hvv hq
    rw [signedQuery, signedQuery] at hq
    have he := urlencode_inj hq
    rw [presignParams, presignParams,
      dictInsert_mid pre post k "recvWindow" v "5000" hk1,
      dictInsert_mid pre post k "recvWindow" v' "5000" hk1,
      dictInsert_mid _ _ k "timestamp" v (Nat.repr nowMs) hk2,
      dictInsert_mid _ _ k "timestamp" v' (Nat.repr nowMs) hk2] at he
    have h2 := List.append_cancel_left he
    simp only [List.cons.injEq, Prod.mk.injEq] at h2
    exact hvv h2.1.2

/-- Witness for C5 at a concrete input. -/
theorem sign_deterministic_query_sensitive_witness :
    ¬ ("A" : String) = "B" ∧
      ¬ signedQuery 3 ([] ++ ("symbol", "A") :: []) =
        signedQuery 3 ([] ++ ("symbol", "B") :: []) :=
  ⟨by decide,
    sign_deterministic_query_sensitive.2.1 [] [] "symbol" "A" "B" 3
      (by decide) (by decide) (by decide)⟩

/-- C5 counterexample: the two mappings differ in the single value stored
under recvWindow, yet _sign produces identical results (and so identical
signatures), because _sign overwrites recvWindow with 5000 before signing. -/
theorem sign_recvWindow_collision_counterexample :
    sign "k" 7 [("recvWindow", "1")] = sign "k" 7 [("recvWindow", "2")] ∧
      ¬ ("1" : String) = "2" :=
  ⟨rfl, by decide⟩

/-- C10: on a mapping containing none of the keys recvWindow, timestamp and
signature, _sign returns the given mapping extended with exactly those three
new entries in that order, recvWindow always 5000, and every key present
before still maps to its original value. -/
theorem sign_pure_extension (secret : String) (nowMs : Nat) (params : Params)
    (h1 : hasKey params "recvWindow" = false)
    (h2 : hasKey params "timestamp" = false)
    (h3 : hasKey params "signature" = false) :
    (∃ sig, sign secret nowMs params =
        params ++
          [("recvWindow", "5000"), ("timestamp", Nat.repr nowMs), ("signature", sig)]) ∧
      ∀ k, hasKey params k = true →
        getVal (sign secret nowMs params) k = getVal params k := by
  have hp := presignParams_absent nowMs params h1 h2
  have hs := sign_eq_append secret nowMs params h3
  constructor
  · refine ⟨hmacSha256Hex (utf8encode secret) (utf8encode (signedQuery nowMs params)), ?_⟩
    rw [hs, hp, List.append_assoc]
    rfl
  · intro k hk
    rw [hs, hp, List.append_assoc]
    exact getVal_append_left params _ k hk

/-- Witness for C10 at a concrete input. -/
theorem sign_pure_extension_witness :
    hasKey [("symbol", "BTCUSDT")] "recvWindow" = false ∧
      ∃ sig, sign "k" 3 [("symbol", "BTCUSDT")] =
        [("symbol", "BTCUSDT")] ++
          [("recvWindow", "5000"), ("timestamp", Nat.repr 3), ("signature", sig)] :=
  ⟨by decide,
    (sign_pure_extension "k" 3 [("symbol", "BTCUSDT")] (by decide) (by decide) (by decide)).1⟩

/-! # Claim theorems: the gateway parameter handling (C6) -/

/-- C6: a gateway call leaves the caller's parameter mapping unchanged; an
unsigned call transmits exactly the caller's parameters, a signed call
transmits the signed copy, and the keys recvWindow, timestamp and signature
that signing adds never appear in the caller's mapping afterwards unless the
caller put them there. -/
theorem request_preserves_caller_params (params : Params) (signed : Bool)
    (secret : String) (nowMs : Nat) :
    (requestEffect params signed secret nowMs).callerParamsAfter = params ∧
      (signed = false → (requestEffect params signed secret nowMs).sentParams = params) ∧
      (signed = true →
        (requestEffect params signed secret nowMs).sentParams = sign secret nowMs params) ∧
      ∀ k, hasKey params k = false →
        hasKey (requestEffect params signed secret nowMs).callerParamsAfter k = false := by
  refine ⟨rfl, ?_, ?_, ?_⟩
  · rintro rfl
    rfl
  · rintro rfl
    rfl
  · intro k hk
    exact hk

/-- Witness for C6 at a concrete input. -/
theorem request_preserves_caller_params_witness :
    (false = false →
      (requestEffect [("symbol", "BTCUSDT")] false "k" 3).sentParams = [("symbol", "BTCUSDT")]) ∧
      (requestEffect [("symbol", "BTCUSDT")] true "k" 3).callerParamsAfter =
        [("symbol", "BTCUSDT")] :=
  ⟨(request_preserves_caller_params [("symbol", "BTCUSDT")] false "k" 3).2.1,
    (request_preserves_caller_params [("symbol", "BTCUSDT")] true "k" 3).1⟩

/-! # Claim theorems: the validators (C7, C9) -/

/-- C7: with an absent raw value, validate_price fails with a ValueError
exactly for the order types LIMIT, STOP and TAKE_PROFIT and returns the
empty value for every other order type; validate_stop_price fails exactly
for STOP, STOP_MARKET, TAKE_PROFIT and TAKE_PROFIT_MARKET and returns the
empty value otherwise. -/
theorem validate_absent_price_stop (t : String) :
    ((∃ m, validate_price none t = .error (.valueError m)) ↔
        (t = "LIMIT" ∨ t = "STOP" ∨ t = "TAKE_PROFIT")) ∧
      (¬ (t = "LIMIT" ∨ t = "STOP" ∨ t = "TAKE_PROFIT") →
        validate_price none t = .ok none) ∧
      ((∃ m, validate_stop_price none t = .error (.valueError m)) ↔
        (t = "STOP" ∨ t = "STOP_MARKET" ∨ t = "TAKE_PROFIT" ∨ t = "TAKE_PROFIT_MARKET")) ∧
      (¬ (t = "STOP" ∨ t = "STOP_MARKET" ∨ t = "TAKE_PROFIT" ∨ t = "TAKE_PROFIT_MARKET") →
        validate_stop_price none t = .ok none) := by
  have hp : PRICE_REQUIRED_TYPES.contains t = true ↔
      (t = "LIMIT" ∨ t = "STOP" ∨ t = "TAKE_PROFIT") := by
    rw [List.elem_iff]
    simp [PRICE_REQUIRED_TYPES, eq_comm]
  have hs : STOP_REQUIRED_TYPES.contains t = true ↔
      (t = "STOP" ∨ t = "STOP_MARKET" ∨ t = "TAKE_PROFIT" ∨ t = "TAKE_PROFIT_MARKET") := by
    rw [List.elem_iff]
    simp [STOP_REQUIRED_TYPES, eq_comm]
  refine ⟨?_, ?_, ?_, ?_⟩
  · rw [← hp, validate_price]
    constructor
    · rintro ⟨m, hm⟩
      by_contra hc
      rw [if_neg (by simpa using hc)] at hm
      exact Except.noConfusion hm
    · intro hc
      rw [if_pos hc]
      exact ⟨_, rfl⟩
  · intro hc
    rw [validate_price, if_neg (by rw [hp]; exact hc)]
  · rw [← hs, validate_stop_price]
    constructor
    · rintro ⟨m, hm⟩
      by_contra hc
      rw [if_neg (by simpa using hc)] at hm
      exact Except.noConfusion hm
    · intro hc
      rw [if_pos hc]
      exact ⟨_, rfl⟩
  · intro hc
    rw [validate_stop_price, if_neg (by rw [hs]; exact hc)]

/-- Witness for C7 at concrete order types. -/
theorem validate_absent_price_stop_witness :
    (∃ m, validate_price none "LIMIT" = .error (.valueError m)) ∧
      validate_price none "MARKET" = .ok none ∧
      validate_stop_price none "LIMIT" = .ok none := by
  refine ⟨(validate_absent_price_stop "LIMIT").1.mpr (by decide), ?_, ?_⟩
  · exact (validate_absent_price_stop "MARKET").2.1 (by decide)
  · exact (validate_absent_price_stop "LIMIT").2.2.2 (by decide)

/-- C9: the numeric validators accept Infinity (the comparison with zero is
defined for infinities) and return an infinite decimal, while NaN passes the
guarded Decimal construction and then makes the unguarded comparison with
zero raise InvalidOperation, an error that is not the ValueError kind; the
same happens in validate_price and validate_stop_price when a raw value is
present. -/
theorem validators_nan_infinity :
    validate_quantity "Infinity" = .ok (.inf false) ∧
      validate_quantity "NaN" = .error .invalidOperation ∧
      (∀ m, PyErr.invalidOperation ≠ PyErr.valueError m) ∧
      validate_price (some "Infinity") "MARKET" = .ok (some (.inf false)) ∧
      validate_price (some "NaN") "LIMIT" = .error .invalidOperation ∧
      validate_stop_price (some "Infinity") "MARKET" = .ok (some (.inf false)) ∧
      validate_stop_price (some "NaN") "STOP" = .error .invalidOperation := by
  refine ⟨rfl, rfl, ?_, rfl, rfl, rfl, rfl⟩
  intro m h
  exact PyErr.noConfusion h

/-! # Claim theorems: the gateway response mapping (C3, C8) -/

/-- C3 (amended: the fall-through to the code/msg fields holds for decoded
JSON object bodies; a decodable body that is not an object makes the .get
attribute access raise AttributeError instead of producing a
BinanceAPIError): for status at least 400, a JSON object body yields a
BinanceAPIError whose code and message come from the code and msg fields
with the HTTP status and raw text as defaults, a non-decodable body yields a
BinanceAPIError with code = status and message = raw text, and the two
concrete scenarios of the specification hold. -/
theorem gateway_error_mapping :
    (∀ (status : Nat) (text : String) (fields : List (String × JsonVal)),
        400 ≤ status →
          handleResponse status text (some (.obj fields)) =
            .error (.binanceAPIError status
              ((jsonLookup fields "code").getD (.num (Int.ofNat status)))
              ((jsonLookup fields "msg").getD (.str text)))) ∧
      (∀ (status : Nat) (text : String), 400 ≤ status →
        handleResponse status text none =
          .error (.binanceAPIError status (.num (Int.ofNat status)) (.str text))) ∧
      handleResponse 400 "body"
          (some (.obj [("code", .num (-1121)), ("msg", .str "Invalid symbol.")])) =
        .error (.binanceAPIError 400 (.num (-1121)) (.str "Invalid symbol.")) ∧
      handleResponse 400 "plain text error" none =
        .error (.binanceAPIError 400 (.num 400) (.str "plain text error")) := by
  refine ⟨?_, ?_, rfl, rfl⟩
  · intro status text fields hst
    rw [handleResponse, if_pos hst]
    rfl
  · intro status text hst
    rw [handleResponse, if_pos hst]

/-- Witness for C3 at a concrete response. -/
theorem gateway_error_mapping_witness :
    (400 ≤ 418) ∧
      handleResponse 418 "teapot" (some (.obj [])) =
        .error (.binanceAPIError 418 (.num (Int.ofNat 418)) (.str "teapot")) :=
  ⟨by decide, gateway_error_mapping.1 418 "teapot" [] (by decide)⟩

/-- C3 counterexample: a 400 response whose body decodes to a JSON array
makes the gateway raise AttributeError (list has no .get) instead of the
BinanceAPIError with defaulted code and message that the claim promises for
every decodable body. -/
theorem gateway_nonobject_body_counterexample :
    handleResponse 400 "[1]" (some (.arr [.num 1])) = .error .attributeError ∧
      ¬ handleResponse 400 "[1]" (some (.arr [.num 1])) =
        .error (.binanceAPIError 400 (.num 400) (.str "[1]")) :=
  ⟨rfl, fun h => PyErr.noConfusion (Except.error.inj h)⟩

/-- C8: for status below 400 the gateway returns the decoded JSON body; when
that body is not decodable JSON the call fails with the JSONDecodeError of
resp.json() rather than returning anything; and success, BinanceAPIError,
the transport errors and this decode failure are all distinct constructors,
distinguishable without string inspection. -/
theorem gateway_success_mapping :
    (∀ (status : Nat) (text : String) (b : JsonVal), status < 400 →
        gatewayCall (.response status text (some b)) = .ok b) ∧
      (∀ (status : Nat) (text : String), status < 400 →
        gatewayCall (.response status text none) = .error .jsonDecodeError) ∧
      (∀ (b : JsonVal) (e : PyErr), (Except.ok b : Except PyErr JsonVal) ≠ .error e) ∧
      (∀ m, PyErr.jsonDecodeError ≠ .connectionError m) ∧
      (∀ m, PyErr.jsonDecodeError ≠ .timeoutError m) ∧
      (∀ st code msg, PyErr.jsonDecodeError ≠ .binanceAPIError st code msg) ∧
      (∀ m st code msg, PyErr.connectionError m ≠ .binanceAPIError st code msg) ∧
      ∀ m m1, PyErr.connectionError m ≠ .timeoutError m1 := by
  refine ⟨?_, ?_, ?_, ?_, ?_, ?_, ?_, ?_⟩
  · intro status text b hst
    rw [gatewayCall, handleResponse, if_neg (by omega)]
  · intro status text hst
    rw [gatewayCall, handleResponse, if_neg (by omega)]
  · intro b e h
    exact Except.noConfusion h
  · intro m h
    exact PyErr.noConfusion h
  · intro m h
    exact PyErr.noConfusion h
  · intro st code msg h
    exact PyErr.noConfusion h
  · intro m st code msg h
    exact PyErr.noConfusion h
  · intro m m1 h
    exact PyErr.noConfusion h

/-- Witness for C8 at a concrete response. -/
theorem gateway_success_mapping_witness :
    (200 < 400) ∧
      gatewayCall (.response 200 "{}" (some (.obj []))) = .ok (.obj []) ∧
      gatewayCall (.response 200 "garbage" none) = .error .jsonDecodeError :=
  ⟨by decide, gateway_success_mapping.1 200 "{}" (.obj []) (by decide),
    gateway_success_mapping.2.1 200 "garbage" (by decide)⟩

/-! ## Decimal parser lemmas (for C4) -/

theorem isDigitC_range {c : Char} (h : isDigitC c = true) :
    48 ≤ c.toNat ∧ c.toNat ≤ 57 := by
  simpa [isDigitC] using h

theorem splitSignC_cons (c : Char) (r : List Char) :
    splitSignC (c :: r) =
      if c = '-' then (true, r) else if c = '+' then (false, r) else (false, c :: r) := rfl

theorem splitSignC_unsigned (ds fs : List Char)
    (hds : ∀ c ∈ ds, isDigitC c = true) :
    splitSignC (ds ++ '.' :: fs) = (false, ds ++ '.' :: fs) := by
  cases ds with
  | nil =>
    rw [List.nil_append, splitSignC_cons, if_neg (by decide), if_neg (by decide)]
  | cons d t =>
    have hd := isDigitC_range (hds d (by simp))
    have h45 : ('-').toNat = 45 := rfl
    have h43 : ('+').toNat = 43 := rfl
    rw [List.cons_append, splitSignC_cons,
      if_neg (fun he => by rw [he] at hd; omega),
      if_neg (fun he => by rw [he] at hd; omega)]

theorem parse_plain_fraction (ds fs : List Char) (hne : ds ≠ [] ∨ fs ≠ [])
    (hds : ∀ c ∈ ds, isDigitC c = true) (hfs : ∀ c ∈ fs, isDigitC c = true) :
    parseDecChars (ds ++ '.' :: fs) =
      some (.num false (digitsToNat (ds ++ fs)) (-(fs.length : Int))) := by
  have h46 : ('.').toNat = 46 := rfl
  have hhead : ∃ (x : Char) (r : List Char),
      ds ++ '.' :: fs = x :: r ∧ (x.toNat = 46 ∨ (48 ≤ x.toNat ∧ x.toNat ≤ 57)) := by
    cases ds with
    | nil => exact ⟨'.', fs, rfl, Or.inl rfl⟩
    | cons d t =>
      exact ⟨d, t ++ '.' :: fs, rfl, Or.inr (isDigitC_range (hds d (by simp)))⟩
  obtain ⟨x, r, hxr, hx⟩ := hhead
  have hnotdot : ('.') ∉ ds := fun hmem => by
    have := isDigitC_range (hds _ hmem)
    omega
  have hnotdot2 : ('.') ∉ fs := fun hmem => by
    have := isDigitC_range (hfs _ hmem)
    omega
  have hnote : ('e') ∉ ds ++ '.' :: fs := by
    have h101 : ('e').toNat = 101 := rfl
    intro hmem
    rcases List.mem_append.mp hmem with hm | hm
    · have := isDigitC_range (hds _ hm)
      omega
    · rcases List.mem_cons.mp hm with he | hm2
      · rw [he] at h101
        exact absurd h101 (by decide)
      · have := isDigitC_range (hfs _ hm2)
        omega
  have hinf1 : ¬ ds ++ '.' :: fs = ['i', 'n', 'f'] := by
    rw [hxr]
    intro he
    injection he with h1 _
    rw [h1] at hx
    have : ('i').toNat = 105 := rfl
    omega
  have hinf2 : ¬ ds ++ '.' :: fs = ['i', 'n', 'f', 'i', 'n', 'i', 't', 'y'] := by
    rw [hxr]
    intro he
    injection he with h1 _
    rw [h1] at hx
    have : ('i').toNat = 105 := rfl
    omega
  have hnan : ¬ ((ds ++ '.' :: fs).take 3 = ['n', 'a', 'n'] ∧
      ((ds ++ '.' :: fs).drop 3).all isDigitC = true) := by
    rw [hxr]
    rintro ⟨he, -⟩
    rw [List.take_succ_cons] at he
    injection he with h1 _
    rw [h1] at hx
    have : ('n').toNat = 110 := rfl
    omega
  have hsnan : ¬ ((ds ++ '.' :: fs).take 4 = ['s', 'n', 'a', 'n'] ∧
      ((ds ++ '.' :: fs).drop 4).all isDigitC = true) := by
    rw [hxr]
    rintro ⟨he, -⟩
    rw [List.take_succ_cons] at he
    injection he with h1 _
    rw [h1] at hx
    have : ('s').toNat = 115 := rfl
    omega
  have hesplit : splitSep 'e' (ds ++ '.' :: fs) = [ds ++ '.' :: fs] :=
    splitSep_no_sep 'e' _ hnote
  have hdsplit : splitSep '.' (ds ++ '.' :: fs) = [ds, fs] := by
    rw [splitSep_append '.' ds fs hnotdot, splitSep_no_sep '.' fs hnotdot2]
  have hnonempty : (ds ++ fs).isEmpty = false := by
    rcases hne with h | h <;> cases hds2 : ds ++ fs <;> simp_all
  have halldig : (ds ++ fs).all isDigitC = true := by
    rw [List.all_append]
    simp only [Bool.and_eq_true]
    exact ⟨List.all_eq_true.mpr hds, List.all_eq_true.mpr hfs⟩
  rw [parseDecChars]
  rw [splitSignC_unsigned ds fs hds]
  simp only
  rw [if_neg (by rw [not_or]; exact ⟨hinf1, hinf2⟩), if_neg hnan, if_neg hsnan,
    parseNumeralC, hesplit]
  simp only
  rw [parseMantC, hdsplit]
  simp only
  rw [if_pos (by rw [hnonempty, halldig]; rfl)]
  rfl

/-! # Claim theorem: validate_quantity (C4) -/

/-- C4: for every string that the Decimal constructor parses to a finite
value with positive rational value, validate_quantity returns exactly that
parsed decimal (sign, coefficient and exponent unchanged, hence no precision
loss); for every string the constructor rejects, and for every parsed finite
value at most zero, validate_quantity fails with a ValueError; and on a
plain digits.digits numeral the parse is exact: the coefficient is the
integer denoted by all the digits as typed and the exponent is minus the
number of fractional digits. -/
theorem validate_quantity_spec :
    (∀ (s : String) (neg : Bool) (c : Nat) (e : Int),
        pyDecimalOfString s = some (.num neg c e) →
        (0 : ℚ) < (if neg then -1 else 1) * (c : ℚ) * 10 ^ (e : ℤ) →
        validate_quantity s = .ok (.num neg c e)) ∧
      (∀ s : String, pyDecimalOfString s = none →
        ∃ m, validate_quantity s = .error (.valueError m)) ∧
      (∀ (s : String) (neg : Bool) (c : Nat) (e : Int),
        pyDecimalOfString s = some (.num neg c e) →
        (if neg then -1 else 1) * (c : ℚ) * 10 ^ (e : ℤ) ≤ 0 →
        ∃ m, validate_quantity s = .error (.valueError m)) ∧
      ∀ (ds fs : List Char), (ds ≠ [] ∨ fs ≠ []) →
        (∀ c ∈ ds, isDigitC c = true) → (∀ c ∈ fs, isDigitC c = true) →
        parseDecChars (ds ++ '.' :: fs) =
          some (.num false (digitsToNat (ds ++ fs)) (-(fs.length : Int))) := by
  refine ⟨?_, ?_, ?_, parse_plain_fraction⟩
  · intro s neg c e hp hpos
    have h10 : (0 : ℚ) < 10 ^ (e : ℤ) := zpow_pos (by norm_num) e
    have hneg : neg = false := by
      by_contra hn
      rw [Bool.not_eq_false] at hn
      subst hn
      simp only [if_true] at hpos
      have hge : (0 : ℚ) ≤ (c : ℚ) * 10 ^ (e : ℤ) :=
        mul_nonneg (Nat.cast_nonneg c) (le_of_lt h10)
      nlinarith
    subst hneg
    have hc0 : ¬ c = 0 := by
      intro h0
      subst h0
      simp at hpos
    rw [validate_quantity, hp]
    simp only [decimalLeZero]
    have hbeq : (c == 0 || false) = false := by
      simp [hc0]
    rw [hbeq]
  · intro s hp
    rw [validate_quantity, hp]
    exact ⟨_, rfl⟩
  · intro s neg c e hp hle
    have h10 : (0 : ℚ) < 10 ^ (e : ℤ) := zpow_pos (by norm_num) e
    have hor : (c == 0 || neg) = true := by
      by_cases hc : c = 0
      · simp [hc]
      · cases hn : neg with
        | true => simp
        | false =>
          exfalso
          rw [hn] at hle
          simp only [if_neg Bool.false_ne_true] at hle
          have hcpos : (0 : ℚ) < (c : ℚ) := by
            exact_mod_cast Nat.pos_of_ne_zero hc
          nlinarith
    rw [validate_quantity, hp]
    simp only [decimalLeZero]
    rw [hor]
    exact ⟨_, rfl⟩

/-- Witness for C4 at concrete inputs. -/
theorem validate_quantity_spec_witness :
    pyDecimalOfString "0.01" = some (.num false 1 (-2)) ∧
      validate_quantity "0.01" = .ok (.num false 1 (-2)) ∧
      pyDecimalOfString "abc" = none ∧
      (∃ m, validate_quantity "abc" = .error (.valueError m)) ∧
      pyDecimalOfString "-1" = some (.num true 1 0) ∧
      (∃ m, validate_quantity "-1" = .error (.valueError m)) ∧
      parseDecChars (['1'] ++ '.' :: ['0', '5']) = some (.num false 105 (-(2 : Int))) :=
  ⟨by decide,
    validate_quantity_spec.1 "0.01" false 1 (-2) (by decide) (by norm_num),
    by decide,
    validate_quantity_spec.2.1 "abc" (by decide),
    by decide,
    validate_quantity_spec.2.2.1 "-1" true 1 0 (by decide) (by norm_num),
    validate_quantity_spec.2.2.2 ['1'] ['0', '5'] (Or.inl (by decide))
      (by decide) (by decide)⟩

/-! ## Pipeline lemmas (for C2) -/

theorem except_bind_ok {ε α β : Type} (x : Except ε α) (f : α → Except ε β) (b : β)
    (h : (x >>= f) = .ok b) : ∃ a, x = .ok a ∧ f a = .ok b := by
  cases x with
  | error e => exact Except.noConfusion h
  | ok a => exact ⟨a, rfl, h⟩

theorem validate_price_none_ok (t : String) (p : Option PyDecimal)
    (h : validate_price none t = .ok p) :
    p = none ∧ PRICE_REQUIRED_TYPES.contains t = false := by
  rw [validate_price] at h
  try dsimp only at h
  split_ifs at h with hc
  all_goals first
    | exact Except.noConfusion h
    | exact ⟨(Except.ok.inj h).symm, by simpa using hc⟩

theorem validate_price_some_ok (raw t : String) (p : Option PyDecimal)
    (h : validate_price (some raw) t = .ok p) : p.isSome = true := by
  rw [validate_price] at h
  try dsimp only at h
  cases hd : pyDecimalOfString raw with
  | none =>
    rw [hd] at h
    exact Except.noConfusion h
  | some d =>
    rw [hd] at h
    try dsimp only at h
    cases hle : decimalLeZero d with
    | error e =>
      rw [hle] at h
      exact Except.noConfusion h
    | ok b =>
      rw [hle] at h
      cases b with
      | true => exact Except.noConfusion h
      | false =>
        have hpd := Except.ok.inj h
        rw [← hpd]
        rfl

theorem validate_stop_price_none_ok (t : String) (p : Option PyDecimal)
    (h : validate_stop_price none t = .ok p) :
    p = none ∧ STOP_REQUIRED_TYPES.contains t = false := by
  rw [validate_stop_price] at h
  try dsimp only at h
  split_ifs at h with hc
  all_goals first
    | exact Except.noConfusion h
    | exact ⟨(Except.ok.inj h).symm, by simpa using hc⟩

theorem validate_stop_price_some_ok (raw t : String) (p : Option PyDecimal)
    (h : validate_stop_price (some raw) t = .ok p) : p.isSome = true := by
  rw [validate_stop_price] at h
  try dsimp only at h
  cases hd : pyDecimalOfString raw with
  | none =>
    rw [hd] at h
    exact Except.noConfusion h
  | some d =>
    rw [hd] at h
    try dsimp only at h
    cases hle : decimalLeZero d with
    | error e =>
      rw [hle] at h
      exact Except.noConfusion h
    | ok b =>
      rw [hle] at h
      cases b with
      | true => exact Except.noConfusion h
      | false =>
        have hpd := Except.ok.inj h
        rw [← hpd]
        rfl

theorem executeOrderValidate_ok_inv (symbol side orderType quantity : String)
    (praw spraw : Option String) (v : ValidatedOrder)
    (h : executeOrderValidate symbol side orderType quantity praw spraw = .ok v) :
    validate_price praw v.orderType = .ok v.price ∧
      validate_stop_price spraw v.orderType = .ok v.stopPrice := by
  rw [executeOrderValidate] at h
  obtain ⟨sym, h1, h⟩ := except_bind_ok _ _ _ h
  obtain ⟨sd, h2, h⟩ := except_bind_ok _ _ _ h
  obtain ⟨t, h3, h⟩ := except_bind_ok _ _ _ h
  obtain ⟨q, h4, h⟩ := except_bind_ok _ _ _ h
  obtain ⟨p, h5, h⟩ := except_bind_ok _ _ _ h
  obtain ⟨sp, h6, h⟩ := except_bind_ok _ _ _ h
  have hv := Except.ok.inj h
  rw [← hv]
  exact ⟨h5, h6⟩

theorem hasKey_orderParams_price (v : ValidatedOrder) :
    hasKey (orderParamsOf v) "price" = v.price.isSome := by
  rw [orderParamsOf]
  simp only [orderParams]
  cases v.price <;> cases v.stopPrice <;> split_ifs <;>
    simp [hasKey, List.any_append]

theorem hasKey_orderParams_stop (v : ValidatedOrder) :
    hasKey (orderParamsOf v) "stopPrice" = v.stopPrice.isSome := by
  rw [orderParamsOf]
  simp only [orderParams]
  cases v.price <;> cases v.stopPrice <;> split_ifs <;>
    simp [hasKey, List.any_append]

/-! # Claim theorem: price and stopPrice presence (C2) -/

/-- C2 (amended: presence is not fully determined by the order type — a
supplied price or stop price survives validation for every order type, so
only the forward directions hold): for every order that passes the full
validation pipeline, the submitted dict has a price field exactly when a raw
price was supplied and a stopPrice field exactly when a raw stop price was
supplied; a price is necessarily supplied when the validated type is LIMIT,
STOP or TAKE_PROFIT, and a stop price when the type is STOP, STOP_MARKET,
TAKE_PROFIT or TAKE_PROFIT_MARKET (types outside the respective set cannot
force absence: they accept both). -/
theorem pipeline_price_stop_presence (symbol side orderType quantity : String)
    (praw spraw : Option String) (v : ValidatedOrder)
    (h : executeOrderValidate symbol side orderType quantity praw spraw = .ok v) :
    hasKey (orderParamsOf v) "price" = praw.isSome ∧
      hasKey (orderParamsOf v) "stopPrice" = spraw.isSome ∧
      (PRICE_REQUIRED_TYPES.contains v.orderType = true → praw.isSome = true) ∧
      (STOP_REQUIRED_TYPES.contains v.orderType = true → spraw.isSome = true) := by
  obtain ⟨hp, hsp⟩ := executeOrderValidate_ok_inv _ _ _ _ _ _ _ h
  refine ⟨?_, ?_, ?_, ?_⟩
  · rw [hasKey_orderParams_price]
    cases praw with
    | none => rw [(validate_price_none_ok _ _ hp).1]; rfl
    | some raw => rw [validate_price_some_ok _ _ _ hp]; rfl
  · rw [hasKey_orderParams_stop]
    cases spraw with
    | none => rw [(validate_stop_price_none_ok _ _ hsp).1]; rfl
    | some raw => rw [validate_stop_price_some_ok _ _ _ hsp]; rfl
  · intro hreq
    cases praw with
    | none =>
      have := (validate_price_none_ok _ _ hp).2
      rw [this] at hreq
      exact Bool.noConfusion hreq
    | some raw => rfl
  · intro hreq
    cases spraw with
    | none =>
      have := (validate_stop_price_none_ok _ _ hsp).2
      rw [this] at hreq
      exact Bool.noConfusion hreq
    | some raw => rfl

/-- Witness for C2 at a concrete passing order. -/
theorem pipeline_price_stop_presence_witness :
    executeOrderValidate "BTCUSDT" "BUY" "LIMIT" "0.01" (some "50000") none =
        .ok ⟨"BTCUSDT", "BUY", "LIMIT", .num false 1 (-2), some (.num false 50000 0), none⟩ ∧
      hasKey (orderParamsOf
        ⟨"BTCUSDT", "BUY", "LIMIT", .num false 1 (-2), some (.num false 50000 0), none⟩)
          "price" = (some "50000").isSome :=
  ⟨rfl,
    (pipeline_price_stop_presence "BTCUSDT" "BUY" "LIMIT" "0.01" (some "50000") none
      ⟨"BTCUSDT", "BUY", "LIMIT", .num false 1 (-2), some (.num false 50000 0), none⟩
      rfl).1⟩

/-- C2 counterexample: a MARKET order with a supplied price passes the whole
validation pipeline and the submitted dict contains a price field although
MARKET is not in the price-required set, refuting the claimed equivalence
between field presence and order type. -/
theorem pipeline_market_price_counterexample :
    pipelineParams "BTCUSDT" "BUY" "MARKET" "0.01" (some "50000") none =
        .ok [("symbol", "BTCUSDT"), ("side", "BUY"), ("type", "MARKET"),
          ("quantity", "0.01"), ("price", "50000")] ∧
      hasKey [("symbol", "BTCUSDT"), ("side", "BUY"), ("type", "MARKET"),
          ("quantity", "0.01"), ("price", "50000")] "price" = true ∧
      PRICE_REQUIRED_TYPES.contains "MARKET" = false :=
  ⟨rfl, by decide, by decide⟩

end TradingBot
